import Mathlib

/-!
Verification development for the Epub2Summary repository.

Python strings are embedded as `List Char`. The stateful handler classes
(`EpubHandler`, `AIHandler`) only thread immutable configuration, so their
methods are embedded as pure functions; the loaded e-book is a `Book` value,
and the file system visible to the merge engine is a read map
`List Char → Except (List Char) (List Char)` (error message or content).
-/

namespace EpubSummary

/-! ## Python string primitives

`pyIsSpace` models the whitespace class used by Python's `str.strip()` (and by
`\S` in the `re` module): the ASCII whitespace control characters together with
the Unicode space separators.  `isLB` models the line-boundary set of
`str.splitlines()`. -/

def pyWsCodes : List Nat :=
  [9, 10, 11, 12, 13, 28, 29, 30, 31, 32, 133, 160, 5760,
   8192, 8193, 8194, 8195, 8196, 8197, 8198, 8199, 8200, 8201, 8202,
   8232, 8233, 8239, 8287, 12288]

def pyIsSpace (c : Char) : Bool := c.toNat ∈ pyWsCodes

def isLB (c : Char) : Bool :=
  c.toNat ∈ [10, 11, 12, 13, 28, 29, 30, 133, 8232, 8233]

/-- Python `str.strip()`: remove leading and trailing whitespace. -/
def pyStrip (l : List Char) : List Char :=
  ((l.dropWhile pyIsSpace).reverse.dropWhile pyIsSpace).reverse

/-- Python `'\n'.join(...)`. -/
def joinNL : List (List Char) → List Char
  | [] => []
  | [c] => c
  | c :: c' :: cs => c ++ '\n' :: joinNL (c' :: cs)

/-- Worker for `pySplitlines`: `cur` is the line being accumulated.  A `\r\n`
pair counts as a single boundary; a trailing boundary does not open a new
line. -/
def slGo (cur : List Char) : List Char → List (List Char)
  | [] => [cur]
  | c :: rest =>
    if c = '\r' && rest.head? == some '\n' then
      match rest with
      | [] => [cur]
      | _ :: rest2 => if rest2.isEmpty then [cur] else cur :: slGo [] rest2
    else if isLB c then
      (if rest.isEmpty then [cur] else cur :: slGo [] rest)
    else slGo (cur ++ [c]) rest

/-- Python `str.splitlines()` (`splitlines("") = []`). -/
def pySplitlines (s : List Char) : List (List Char) :=
  match s with
  | [] => []
  | _ => slGo [] s

/-- Python `str.split("  ")`: split on each non-overlapping occurrence of two
consecutive ASCII spaces, scanning left to right. -/
def splitTwoSpaces : List Char → List (List Char)
  | [] => [[]]
  | [c] => [[c]]
  | c :: d :: rest =>
    if c = ' ' ∧ d = ' ' then [] :: splitTwoSpaces rest
    else
      match splitTwoSpaces (d :: rest) with
      | [] => [[c]]
      | p :: ps => (c :: p) :: ps

/-- Python `str.split('\n')`. -/
def splitNL : List Char → List (List Char)
  | [] => [[]]
  | '\n' :: rest => [] :: splitNL rest
  | c :: rest =>
    match splitNL rest with
    | [] => [[c]]
    | p :: ps => (c :: p) :: ps

/-- The chunk pipeline of the text normalizer (`extract_text_from_html`,
src/epub_handler.py lines 29-31): split into lines, strip each line, split each
line on two-space runs, strip each phrase, drop empty results. -/
def normChunks (s : List Char) : List (List Char) :=
  (((pySplitlines s).map pyStrip).flatMap
      (fun line => (splitTwoSpaces line).map pyStrip)).filter
    (fun c => !c.isEmpty)

/-- The Text Normalizer: lines 29-31 of `extract_text_from_html`
(src/epub_handler.py), applied to the plain text that `soup.get_text()`
returned after the script/style nodes were removed. -/
def normalizeText (s : List Char) : List Char :=
  joinNL (normChunks s)

/-! ## The chapter-heading grammar

`EpubHandler.chapter_regex` (src/epub_handler.py line 10) is

  `^(?:(.+[ 　]+)|())(第[一二三四五六七八九十零〇百千万两0-9]+[章卷]|卷[一二三四五六七八九十零〇百千万两0-9]+|chap(?:ter)\.?|vol(?:ume)?\.?|book|bk)(?:[ 　]+(?:\S.*)?)?[ 　]*$`

matched with `re.match(..., re.IGNORECASE)` against one line at a time.  Since
the pattern ends in `$`, a match is exactly a decomposition of the whole line
into an optional label ending in a space, a marker token, and an optional
space-introduced trailing text.  `chapterHeadingMatch` decides the existence of
such a decomposition. -/

/-- The two space characters of the character class `[ 　]` (ASCII space and
ideographic space U+3000). -/
def isSpaceCJK (c : Char) : Bool := c = ' ' || c = '　'

/-- The numeral characters accepted inside a CJK chapter/volume marker. -/
def isCJKDigit (c : Char) : Bool :=
  c ∈ ['一', '二', '三', '四', '五', '六', '七', '八', '九', '十',
       '零', '〇', '百', '千', '万', '两'] || (('0' ≤ c) && (c ≤ '9'))

/-- ASCII lower-casing, the effect of `re.IGNORECASE` on the Latin branches. -/
def asciiLower (c : Char) : Char :=
  if 65 ≤ c.toNat && c.toNat ≤ 90 then Char.ofNat (c.toNat + 32) else c

/-- `第<digits>+[章卷]`. -/
def isCJKChapterMarker : List Char → Bool
  | [] => false
  | c :: rest =>
    decide (c = '第') && !rest.dropLast.isEmpty && rest.dropLast.all isCJKDigit &&
      (rest.getLast? == some '章' || rest.getLast? == some '卷')

/-- `卷<digits>+`. -/
def isCJKVolMarker : List Char → Bool
  | [] => false
  | c :: rest => decide (c = '卷') && !rest.isEmpty && rest.all isCJKDigit

/-- `chap(?:ter)\.?|vol(?:ume)?\.?|book|bk`, case-insensitively. -/
def isLatinMarker (mk : List Char) : Bool :=
  mk.map asciiLower = "chapter".data || mk.map asciiLower = "chapter.".data ||
    mk.map asciiLower = "vol".data || mk.map asciiLower = "vol.".data ||
    mk.map asciiLower = "volume".data || mk.map asciiLower = "volume.".data ||
    mk.map asciiLower = "book".data || mk.map asciiLower = "bk".data

def markerOK (mk : List Char) : Bool :=
  isCJKChapterMarker mk || isCJKVolMarker mk || isLatinMarker mk

/-- The optional leading label `(?:(.+[ 　]+)|())`: empty, or at least two
characters ending in a space from `[ 　]`, containing no newline (`.` does not
match `\n`). -/
def preOK (pre : List Char) : Bool :=
  pre.isEmpty ||
    (decide (2 ≤ pre.length) && (pre.getLast? == some ' ' || pre.getLast? == some '　') &&
      pre.all (fun c => c ≠ '\n'))

/-- The text after the marker, `(?:[ 　]+(?:\S.*)?)?[ 　]*$`: either spaces
from `[ 　]` only, or a non-empty run of such spaces followed by a
non-whitespace character and arbitrary newline-free text. -/
def postOK (post : List Char) : Bool :=
  post.all isSpaceCJK ||
    (let sp := post.takeWhile isSpaceCJK
     let r := post.dropWhile isSpaceCJK
     !sp.isEmpty && !r.isEmpty &&
       (match r.head? with
        | some c => !pyIsSpace c
        | none => false) &&
       r.all (fun c => c ≠ '\n'))

/-- All decompositions `l = p.1 ++ p.2`. -/
def splits : List Char → List (List Char × List Char)
  | [] => [([], [])]
  | c :: rest => ([], c :: rest) :: (splits rest).map (fun p => (c :: p.1, p.2))

/-- Whether `re.match(chapter_regex, line, re.IGNORECASE)` succeeds. -/
def chapterHeadingMatch (line : List Char) : Bool :=
  (splits line).any fun pr =>
    preOK pr.1 &&
      ((splits pr.2).any fun mp => markerOK mp.1 && postOK mp.2)

/-! ## Chapter records

A chapter is a Python dict.  All detectors set `title` and `content`;
only TOC-derived chapters (and the synthetic normalization in
`get_all_chapters`) carry `href` and `level`, so those keys are optional. -/

structure Chapter where
  title : List Char
  content : List Char
  href : Option (List Char) := none
  level : Option Nat := none
deriving DecidableEq, Repr

/-! ## Pattern detector: `split_by_regex` (src/epub_handler.py lines 45-75) -/

/-- Python truthiness of the `current_chapter` variable (`None` or a string). -/
def truthy : Option (List Char) → Bool
  | none => false
  | some t => !t.isEmpty

/-- The loop of `split_by_regex`: `cur` is `current_chapter`, `acc` is
`current_content`, and the returned list is what gets appended to
`chapters` from this point on (including the final flush). -/
def srGo (cur : Option (List Char)) (acc : List (List Char)) :
    List (List Char) → List Chapter
  | [] =>
    if truthy cur then [{ title := cur.getD [], content := joinNL acc }] else []
  | l :: ls =>
    if chapterHeadingMatch l then
      (if truthy cur then [{ title := cur.getD [], content := joinNL acc }] else []) ++
        srGo (some (pyStrip l)) [] ls
    else
      srGo cur (if truthy cur then acc ++ [l] else acc) ls

/-- `EpubHandler.split_by_regex`. -/
def split_by_regex (text : List Char) : List Chapter :=
  srGo none [] (splitNL text)

/-- The pattern-detector contract as the specification states it: one chapter
per grammar-matching line, in line order; `title` is the matching line
trimmed; `content` is the run of non-matching lines up to the next match,
joined with newlines; lines before the first match belong to no chapter. -/
def specRegexSplit : List (List Char) → List Chapter
  | [] => []
  | l :: ls =>
    if chapterHeadingMatch l then
      { title := pyStrip l,
        content := joinNL (ls.takeWhile (fun x => !chapterHeadingMatch x)) } ::
        specRegexSplit (ls.dropWhile (fun x => !chapterHeadingMatch x))
    else
      specRegexSplit ls
termination_by ls => ls.length
decreasing_by
  · exact Nat.lt_succ_of_le ((List.dropWhile_sublist _).length_le)
  · exact Nat.lt_succ_self _

/-! ## Structural detector: `split_by_xpath` (src/epub_handler.py lines 77-133)

The detector runs an XPath query for heading nodes
(`h1`/`h2` whose rendered text matches the chapter-word pattern, or any node
with `class="chapter"`), then, for each heading node in document order, walks
the following siblings (`getnext()`) up to the next heading node and collects
their `text_content()`.  The fragment is embedded as the list of sibling
nodes the walk ranges over: `isHeading` is the value of the XPath heading
predicate on the node (the same predicate is used for discovery on line 89 and
for the stop test on line 107), and `text` is the node's `text_content()`. -/

structure PNode where
  isHeading : Bool
  text : List Char
deriving DecidableEq, Repr

/-- `EpubHandler.split_by_xpath` on a parsed fragment.  For each heading node:
`title` is its text stripped, `content` is the normalized newline-join of the
following siblings' text up to the next heading node, and the chapter is
appended only when both are non-empty (`if title and content:` on line 124). -/
def split_by_xpath : List PNode → List Chapter
  | [] => []
  | n :: ns =>
    (if n.isHeading then
      let title := pyStrip n.text
      let content :=
        normalizeText (joinNL ((ns.takeWhile (fun m => !m.isHeading)).map PNode.text))
      if !title.isEmpty && !content.isEmpty then
        [{ title := title, content := content }]
      else []
    else []) ++ split_by_xpath ns

/-- Each element of a list paired with the list of elements after it. -/
def withTails : List α → List (α × List α)
  | [] => []
  | x :: xs => (x, xs) :: withTails xs

/-- The structural-detector contract as the specification states it: one
candidate chapter per heading-matching node, in document order, whose content
is the normalized text of the sibling nodes strictly between that heading and
the next heading-matching node (never the heading's own text). -/
def xpathCandidates (frag : List PNode) : List Chapter :=
  ((withTails frag).filter (fun p => p.1.isHeading)).map fun p =>
    { title := pyStrip p.1.text,
      content :=
        normalizeText (joinNL ((p.2.takeWhile (fun m => !m.isHeading)).map PNode.text)) }

/-! ## The loaded book

`Book` is the state of an `EpubHandler` after `load_epub`.  An item of
`book.get_items()` is embedded with the data the handler reads from it: its
`href`, whether `get_type() == ITEM_DOCUMENT`, the parsed sibling fragment
that `split_by_xpath` would receive for its HTML, and the plain text that
`BeautifulSoup.get_text()` yields for it after `script`/`style` removal
(`extract_text_from_html` is `get_text` followed by `normalizeText`).
A TOC entry has an optional `href` (modelling `hasattr(item, 'href')`), a
title and a list of sub-entries (`hasattr(item, 'items') and item.items`
is the test that the list is non-empty). -/

structure DocItem where
  href : List Char
  isDocument : Bool
  frag : List PNode
  rawText : List Char
deriving DecidableEq, Repr

inductive TocItem where
  | mk (href : Option (List Char)) (title : List Char) (children : List TocItem)

structure Book where
  items : List DocItem
  toc : List TocItem

/-- `ebooklib.epub.EpubBook.get_item_with_href`. -/
def getItemWithHref (book : Book) (href : List Char) : Option DocItem :=
  book.items.find? (fun it => it.href = href)

/-- `extract_text_from_html` applied to a document item's content. -/
def extractItemText (it : DocItem) : List Char :=
  normalizeText it.rawText

/-- `EpubHandler.extract_all_text` (lines 34-43): the normalized text of every
document item, non-empty texts only, joined with newlines. -/
def extract_all_text (book : Book) : List Char :=
  joinNL (book.items.foldl
    (fun acc it =>
      if it.isDocument then
        let t := extractItemText it
        if t.isEmpty then acc else acc ++ [t]
      else acc)
    [])

/-- `process_toc_item` (lines 139-159): depth-bounded traversal of one TOC
entry; entries deeper than level 2 are skipped, an entry with an `href` that
resolves to an item yields a chapter carrying `href` and `level`. -/
def processTocItem (book : Book) : TocItem → Nat → List Chapter
  | TocItem.mk href title children, level =>
    if level > 2 then []
    else
      (match href with
       | some h =>
         match getItemWithHref book h with
         | some it =>
           [{ title := title, content := extractItemText it,
              href := some h, level := some level }]
         | none => []
       | none => []) ++
      (children.attach.map (fun c => processTocItem book c.1 (level + 1))).flatten
termination_by t => sizeOf t
decreasing_by
  have := List.sizeOf_lt_of_mem c.2
  simp only [TocItem.mk.sizeOf_spec]
  omega

/-- `EpubHandler.get_toc_chapters` (lines 135-177).  With `include_all` set
and an empty TOC result, falls back to the pattern detector, synthesizing
`chapter_<i>.html` hrefs and level 0. -/
def get_toc_chapters (book : Book) (include_all : Bool) : List Chapter :=
  let chapters := (book.toc.map (fun t => processTocItem book t 0)).flatten
  if include_all && chapters.isEmpty then
    (split_by_regex (extract_all_text book)).enum.map fun p =>
      { title := p.2.title, content := p.2.content,
        href := some ("chapter_".data ++ Nat.toDigits 10 p.1 ++ ".html".data),
        level := some 0 }
  else chapters

/-- `EpubHandler._split_by_xpath` (lines 242-249): run the structural detector
over every document item, concatenating non-empty per-item results. -/
def xpathChapters (book : Book) : List Chapter :=
  book.items.foldl
    (fun acc it =>
      if it.isDocument then
        let xc := split_by_xpath it.frag
        if xc.isEmpty then acc else acc ++ xc
      else acc)
    []

/-- The first if/elif chain of `get_all_chapters` (lines 184-198): the
chapters produced by the requested detection method (`chapters` stays empty
for an unrecognized method name). -/
def primaryChapters (book : Book) (method : List Char) : List Chapter :=
  if method = "xpath".data then xpathChapters book
  else if method = "regex".data then split_by_regex (extract_all_text book)
  else if method = "toc".data then get_toc_chapters book true
  else []

/-- `EpubHandler.get_all_chapters` (lines 179-216): the user-choice
enumeration.  If the requested method finds nothing, fall back to the TOC
(in include-all mode) and then to the pattern detector; finally give every
chapter an `href` (`chapter_<i>.html` by position when missing) and a `level`
(0 when missing). -/
def get_all_chapters (book : Book) (method : List Char) : List Chapter :=
  let chapters := primaryChapters book method
  let chapters :=
    if chapters.isEmpty then
      let c := get_toc_chapters book true
      if c.isEmpty then split_by_regex (extract_all_text book) else c
    else chapters
  chapters.enum.map fun p =>
    { title := p.2.title, content := p.2.content,
      href := some (p.2.href.getD ("chapter_".data ++ Nat.toDigits 10 p.1 ++ ".html".data)),
      level := some (p.2.level.getD 0) }

/-- `EpubHandler.split_into_chapters` (lines 218-240): the primary
segmentation path.  An explicit method runs alone; any other method name takes
the default branch, which tries xpath, then regex, then TOC, each helper
extending `chapters` only when the previous ones left it empty.  No
`href`/`level` normalization happens on this path. -/
def split_into_chapters (book : Book) (method : List Char) : List Chapter :=
  if method = "xpath".data then xpathChapters book
  else if method = "regex".data then split_by_regex (extract_all_text book)
  else if method = "toc".data then get_toc_chapters book false
  else
    let c := xpathChapters book
    let c := if c.isEmpty then c ++ split_by_regex (extract_all_text book) else c
    let c := if c.isEmpty then c ++ get_toc_chapters book false else c
    c

/-- First non-empty list of a sequence of candidate lists (the fallback-chain
contract stated by the specification). -/
def firstNonEmpty : List (List α) → List α
  | [] => []
  | l :: ls => if l.isEmpty then firstNonEmpty ls else l

/-! ## Ordering and merge engine: `AIHandler.merge_summaries`
(src/ai_handler.py lines 109-166)

File names are `List Char`; the readable artifacts are a map from file name
to `Except errorMessage content` (`.error` is a failing
`open`/`read`, whose exception text the merge prints inline). -/

/-- Python `os.path.basename` (POSIX): the part after the last `/`. -/
def basename (f : List Char) : List Char :=
  (f.reverse.takeWhile (fun c => c ≠ '/')).reverse

/-- ASCII decimal digit, the characters found by `re.search(r'\d+', ...)` on
these file names. -/
def isDigitCh (c : Char) : Bool := ('0' ≤ c) && (c ≤ '9')

/-- `int(match.group(1))` for the first maximal digit run found by
`re.search(r'(\d+)', file_name)`, or 0 when there is none (the explicit
`return 0` of `sort_key`). -/
def firstNumber (l : List Char) : Nat :=
  ((l.dropWhile (fun c => !isDigitCh c)).takeWhile isDigitCh).foldl
    (fun n c => 10 * n + (c.toNat - 48)) 0

/-- The key of `merge_summaries.sort_key`. -/
def sortKey (f : List Char) : Nat := firstNumber (basename f)

/-- `has_numbering` (line 115): some base name contains a digit. -/
def hasNumbering (files : List (List Char)) : Bool :=
  files.any (fun f => (basename f).any isDigitCh)

/-- The `sorted_files` value of `merge_summaries` (lines 117-131): Python's
stable `sorted(summary_files, key=sort_key)` when some name carries a number
(embedded as a stable merge sort on the key order), the input list itself
otherwise. -/
def sortedFiles (files : List (List Char)) : List (List Char) :=
  if hasNumbering files then
    files.mergeSort (fun a b => decide (sortKey a ≤ sortKey b))
  else files

/-- Bounded-fuel substring replacement; with `fuel ≥ s.length` this is
Python's `s.replace(pat, rep)` for non-empty `pat` (left-to-right,
non-overlapping). -/
def replaceFuel (pat rep : List Char) : Nat → List Char → List Char
  | _, [] => []
  | 0, s => s
  | fuel + 1, c :: rest =>
    if !pat.isEmpty && pat.isPrefixOf (c :: rest) then
      rep ++ replaceFuel pat rep fuel ((c :: rest).drop pat.length)
    else c :: replaceFuel pat rep fuel rest

/-- Python `s.replace(pat, rep)` (used only with non-empty `pat`). -/
def pyReplace (s pat rep : List Char) : List Char :=
  replaceFuel pat rep s.length s

/-- `os.path.basename(f).replace('_summary.md', '').replace('_', ' ')`
(lines 140 and 152). -/
def displayTitle (f : List Char) : List Char :=
  pyReplace (pyReplace (basename f) "_summary.md".data []) "_".data " ".data

/-- One entry of the generated index (line 141):
`f"{i+1}. [{chapter_title}](#{i+1})\n"`. -/
def tocEntryLine (i : Nat) (f : List Char) : List Char :=
  Nat.toDigits 10 (i + 1) ++ ". [".data ++ displayTitle f ++ "](#".data ++
    Nat.toDigits 10 (i + 1) ++ ")\n".data

/-- The reader seen by the merge: content of each artifact, or the error
message of the exception raised when reading it. -/
def FileMap : Type := List Char → Except (List Char) (List Char)

/-- The body emitted for a readable artifact (lines 157-160): drop every line
whose stripped form starts with `#`, rejoin, strip, append a blank line. -/
def sectionBody (content : List Char) : List Char :=
  pyStrip (joinNL ((splitNL content).filter
    (fun l => !((pyStrip l).head? == some '#')))) ++ "\n\n".data

/-- The section heading regenerated from the numbered index (line 155):
`f"## {i+1}. {chapter_title}\n\n"`. -/
def sectionHeading (i : Nat) (f : List Char) : List Char :=
  "## ".data ++ Nat.toDigits 10 (i + 1) ++ ". ".data ++ displayTitle f ++ "\n\n".data

/-- The section written for one artifact (lines 146-164): heading plus body on
a successful read; on an exception, a heading built from the raw base name
plus the inline failure note `读取总结内容失败: <e>`. -/
def mergeSection (fs : FileMap) (i : Nat) (f : List Char) : List Char :=
  match fs f with
  | Except.ok content => sectionHeading i f ++ sectionBody content
  | Except.error e =>
    "## ".data ++ Nat.toDigits 10 (i + 1) ++ ". ".data ++ basename f ++ "\n\n".data ++
      "读取总结内容失败: ".data ++ e ++ "\n\n".data

/-- The body sections of the merged document, in resolved order. -/
def mergeSections (fs : FileMap) (files : List (List Char)) : List (List Char) :=
  (sortedFiles files).enum.map fun p => mergeSection fs p.1 p.2

/-- Result of `merge_summaries`: the text written to `output_path`, plus the
final value of the caller's `summary_files` list.  The function only reads
that list (`any`, iteration) and passes it to `sorted`, which returns a fresh
list, so the recorded final value is the argument itself. -/
structure MergeResult where
  output : List Char
  filesAfter : List (List Char)
deriving DecidableEq

/-- `AIHandler.merge_summaries` (lines 109-166): header, generated index, then
the body sections in resolved order. -/
def merge_summaries (fs : FileMap) (files : List (List Char)) : MergeResult :=
  let sorted := sortedFiles files
  let header := "# 全书总览\n\n".data ++ "## 目录\n\n".data
  let toc := (sorted.enum.map fun p => tocEntryLine p.1 p.2).flatten
  let body := (mergeSections fs files).flatten
  { output := header ++ toc ++ "\n".data ++ body, filesAfter := files }

/-! ## Concrete instances used by witnesses and counterexamples -/

/-- A one-document book whose text is a single chapter heading line followed
by one body line; it has no TOC and no structural heading nodes. -/
def demoBookA : Book :=
  { items := [{ href := "d.html".data, isDocument := true, frag := [],
                rawText := "chapter\nbody".data }],
    toc := [] }

/-- A one-document book in which no detection strategy finds anything. -/
def demoBookB : Book :=
  { items := [{ href := "d.html".data, isDocument := true, frag := [],
                rawText := "hello".data }],
    toc := [] }

/-- A fragment whose first heading node is immediately followed by another
heading node. -/
def demoFrag : List PNode :=
  [{ isHeading := true, text := "One".data },
   { isHeading := true, text := "Two".data },
   { isHeading := false, text := "body".data }]

/-- Two artifacts without numerals in their names. -/
def demoFiles : List (List Char) := ["a_summary.md".data, "b_summary.md".data]

/-- A reader on which `a_summary.md` holds text with a heading line in the
middle and every other artifact fails with exception text `boom`. -/
def demoFs : FileMap := fun f =>
  if f = "a_summary.md".data then Except.ok "# t\nbody\n# note\nend".data
  else Except.error "boom".data

/-- The chapter that `get_all_chapters demoBookA "toc"` produces. -/
def demoChapterA : Chapter :=
  { title := "chapter".data, content := "body".data,
    href := some "chapter_0.html".data, level := some 0 }

/-! ## Theorems -/

/-- C10: the merge operation does not mutate its input list of artifact
names; `sorted()` copies, and `merge_summaries` only reads `summary_files`. -/
theorem merge_summaries_preserves_input (fs : FileMap) (files : List (List Char)) :
    (merge_summaries fs files).filesAfter = files := rfl

/-- C2: in automatic mode (any method name other than the three explicit
ones) the orchestrator tries the structural, pattern and navigation detectors
in that fixed order and returns the first non-empty result unchanged; in
particular, when structural detection is empty and pattern detection is not,
the result is exactly the pattern detector's. -/
theorem split_into_chapters_auto_first_nonempty (book : Book) (m : List Char)
    (h1 : m ≠ "xpath".data) (h2 : m ≠ "regex".data) (h3 : m ≠ "toc".data) :
    split_into_chapters book m =
      firstNonEmpty [xpathChapters book, split_by_regex (extract_all_text book),
        get_toc_chapters book false] := by
  unfold split_into_chapters
  rw [if_neg h1, if_neg h2, if_neg h3]
  by_cases ha : (xpathChapters book).isEmpty <;>
    by_cases hb : (split_by_regex (extract_all_text book)).isEmpty <;>
    by_cases hc : (get_toc_chapters book false).isEmpty <;>
    simp_all [List.isEmpty_iff, firstNonEmpty]

theorem split_into_chapters_auto_first_nonempty_witness :
    split_into_chapters demoBookA "auto".data =
      firstNonEmpty [xpathChapters demoBookA,
        split_by_regex (extract_all_text demoBookA),
        get_toc_chapters demoBookA false] :=
  split_into_chapters_auto_first_nonempty demoBookA "auto".data
    (by decide) (by decide) (by decide)

/-- C3 (amended): the structural detector yields, for each heading-matching
node in document order, a candidate chapter whose title is the node's trimmed
text and whose content is the normalized text of the siblings up to the next
heading node, but keeps only the candidates whose title and content are both
non-empty (`if title and content:`, line 124). -/
theorem split_by_xpath_eq_candidates (frag : List PNode) :
    split_by_xpath frag =
      (xpathCandidates frag).filter
        (fun c => !c.title.isEmpty && !c.content.isEmpty) := by
  induction frag with
  | nil => rfl
  | cons n ns ih =>
    by_cases hn : n.isHeading
    · simp only [split_by_xpath, xpathCandidates, withTails, hn, if_pos,
        List.filter_cons, List.map_cons]
      by_cases hk :
          (!(pyStrip n.text).isEmpty &&
            !(normalizeText (joinNL ((ns.takeWhile fun m => !m.isHeading).map
              PNode.text))).isEmpty) = true
      · simp only [hk, if_pos, List.cons_append, List.nil_append, List.filter_cons]
        rw [ih]
        simp [xpathCandidates, hk]
      · simp only [Bool.not_eq_true] at hk
        simp only [hk, Bool.false_eq_true, if_false, List.nil_append, List.filter_cons]
        rw [ih]
        simp [xpathCandidates, hk]
    · simp only [Bool.not_eq_true] at hn
      simp only [split_by_xpath, xpathCandidates, withTails, hn,
        Bool.false_eq_true, if_false, List.nil_append, List.filter_cons]
      rw [ih]
      simp [xpathCandidates, hn]

/-- C3 counterexample: on `demoFrag` there are two heading-matching nodes but
the detector returns a single chapter, because the first heading's content is
empty and `if title and content:` drops it; the claim's "one chapter per
heading-matching node, empty content allowed" is false on the code. -/
theorem split_by_xpath_not_one_per_heading :
    (split_by_xpath demoFrag).map Chapter.title = ["Two".data] ∧
      (demoFrag.filter PNode.isHeading).length = 2 := by decide

/-- C4 (amended): every chapter returned by the user-choice enumeration
`get_all_chapters` carries an `href` and a `level`; the primary
`split_into_chapters` path performs no such normalization. -/
theorem get_all_chapters_href_level (book : Book) (method : List Char)
    (c : Chapter) (hc : c ∈ get_all_chapters book method) :
    c.href.isSome ∧ c.level.isSome := by
  simp only [get_all_chapters, List.mem_map] at hc
  obtain ⟨p, _, rfl⟩ := hc
  exact ⟨rfl, rfl⟩

theorem get_all_chapters_href_level_witness :
    demoChapterA.href.isSome ∧ demoChapterA.level.isSome :=
  get_all_chapters_href_level demoBookA "toc".data demoChapterA (by decide)

/-- C4 counterexample: `split_into_chapters` (an orchestrator path the claim
covers) returns a chapter with no `href` and no `level`: the pattern detector
produces bare `title`/`content` records and lines 218-240 never normalize
them. -/
theorem split_into_chapters_missing_href :
    (split_into_chapters demoBookA "regex".data).map Chapter.href = [none] ∧
      (split_into_chapters demoBookA "regex".data).map Chapter.level = [none] := by
  decide

/-- C9 (amended): the user-choice enumeration falls back to the TOC (with its
own pattern fallback) and then the pattern detector whenever the requested
strategy finds nothing, so its result is empty exactly when the requested
strategy and both fallbacks all find nothing — it can still be empty. -/
theorem get_all_chapters_eq_nil_iff (book : Book) (method : List Char) :
    get_all_chapters book method = [] ↔
      (primaryChapters book method = [] ∧ get_toc_chapters book true = [] ∧
        split_by_regex (extract_all_text book) = []) := by
  unfold get_all_chapters
  rw [List.map_eq_nil_iff, List.enum_eq_nil]
  by_cases hp : (primaryChapters book method).isEmpty <;>
    by_cases ht : (get_toc_chapters book true).isEmpty <;>
    simp_all [List.isEmpty_iff]

/-- C9 counterexample: a book with no TOC and no matching text makes the
user-choice enumeration return an empty list, refuting "never returns an
empty chapter list". -/
theorem get_all_chapters_can_be_empty :
    get_all_chapters demoBookB "toc".data = [] := by decide

/-! ### The merge ordering (C1) -/

theorem sortKeyLe_trans : ∀ a b c : List Char,
    decide (sortKey a ≤ sortKey b) = true → decide (sortKey b ≤ sortKey c) = true →
    decide (sortKey a ≤ sortKey c) = true := by
  intro a b c hab hbc
  simp only [decide_eq_true_eq] at hab hbc ⊢
  omega

theorem sortKeyLe_total : ∀ a b : List Char,
    (decide (sortKey a ≤ sortKey b) || decide (sortKey b ≤ sortKey a)) = true := by
  intro a b
  simp [Nat.le_total]

theorem sortedFiles_length (files : List (List Char)) :
    (sortedFiles files).length = files.length := by
  unfold sortedFiles
  by_cases h : hasNumbering files
  · rw [if_pos h]
    exact (List.mergeSort_perm files _).length_eq
  · rw [if_neg h]

/-- C1: when some base name contains a decimal numeral the merge emits the
artifacts sorted ascending by the first numeral of each base name (`sortKey`
is 0 when the base name has no numeral), the output is a permutation of the
input, and the tie-break is stable: the artifacts sharing any key value keep
exactly their original relative order.  When no base name contains a numeral
the output order is exactly the input order. -/
theorem sortedFiles_ordering (files : List (List Char)) :
    (hasNumbering files = true →
      (sortedFiles files).Perm files ∧
        List.Pairwise (fun a b => sortKey a ≤ sortKey b) (sortedFiles files) ∧
        ∀ k, (sortedFiles files).filter (fun f => sortKey f == k) =
          files.filter (fun f => sortKey f == k)) ∧
    (hasNumbering files = false → sortedFiles files = files) := by
  constructor
  · intro h
    unfold sortedFiles
    rw [if_pos h]
    refine ⟨List.mergeSort_perm files _, ?_, ?_⟩
    · have hs := @List.sorted_mergeSort (List Char)
        (fun a b => decide (sortKey a ≤ sortKey b))
        sortKeyLe_trans sortKeyLe_total files
      exact hs.imp (fun hab => by simpa using hab)
    · intro k
      have hpw : List.Pairwise (fun a b => decide (sortKey a ≤ sortKey b) = true)
          (files.filter (fun f => sortKey f == k)) := by
        refine List.pairwise_of_forall_mem_list ?_
        intro a ha b hb
        have ha' := List.of_mem_filter ha
        have hb' := List.of_mem_filter hb
        simp only [beq_iff_eq] at ha' hb'
        simp [ha', hb']
      have hsub : (files.filter (fun f => sortKey f == k)).Sublist
          (files.mergeSort (fun a b => decide (sortKey a ≤ sortKey b))) :=
        List.sublist_mergeSort sortKeyLe_trans sortKeyLe_total hpw
          (List.filter_sublist files)
      have hself : (files.filter (fun f => sortKey f == k)).filter
          (fun f => sortKey f == k) = files.filter (fun f => sortKey f == k) := by
        rw [List.filter_filter]
        simp
      have hsub2 : (files.filter (fun f => sortKey f == k)).Sublist
          ((files.mergeSort (fun a b => decide (sortKey a ≤ sortKey b))).filter
            (fun f => sortKey f == k)) := by
        rw [← hself]
        exact hsub.filter _
      have hperm : ((files.mergeSort
            (fun a b => decide (sortKey a ≤ sortKey b))).filter
          (fun f => sortKey f == k)).Perm
          (files.filter (fun f => sortKey f == k)) :=
        (List.mergeSort_perm files _).filter _
      exact (hsub2.eq_of_length hperm.length_eq.symm).symm
  · intro h
    unfold sortedFiles
    rw [if_neg (by simp [h])]

theorem sortedFiles_ordering_witness :
    sortedFiles demoFiles = demoFiles ∧
      List.Pairwise (fun a b => sortKey a ≤ sortKey b)
        (sortedFiles ["ch2_summary.md".data, "ch1_summary.md".data]) :=
  ⟨(sortedFiles_ordering demoFiles).2 (by decide),
   ((sortedFiles_ordering ["ch2_summary.md".data, "ch1_summary.md".data]).1
      (by decide)).2.1⟩

/-! ### The merge sections (C6, C7) -/

theorem mergeSections_getElem_ok (fs : FileMap) (files : List (List Char))
    (i : Nat) (f content : List Char)
    (hf : (sortedFiles files)[i]? = some f) (hc : fs f = Except.ok content) :
    (mergeSections fs files)[i]? =
      some (sectionHeading i f ++ sectionBody content) := by
  unfold mergeSections
  rw [List.getElem?_map, List.getElem?_enum, hf]
  simp [mergeSection, hc]

/-- C6 (amended): for a readable artifact, the emitted body section is the
artifact's stored text with every line whose stripped form starts with the
heading marker `#` removed — wherever that line occurs, leading or not — the
remainder rejoined, stripped, and closed with a blank line; the section
heading is regenerated from the numbered index (`sectionHeading`), not copied
from the artifact. -/
theorem mergeSections_readable_section (fs : FileMap) (files : List (List Char))
    (i : Nat) (f content : List Char)
    (hf : (sortedFiles files)[i]? = some f) (hc : fs f = Except.ok content) :
    (mergeSections fs files)[i]? =
      some (sectionHeading i f ++
        (pyStrip (joinNL ((splitNL content).filter
          (fun l => !((pyStrip l).head? == some '#')))) ++ "\n\n".data)) :=
  mergeSections_getElem_ok fs files i f content hf hc

theorem mergeSections_readable_section_witness :
    (mergeSections demoFs demoFiles)[0]? =
      some (sectionHeading 0 "a_summary.md".data ++
        (pyStrip (joinNL ((splitNL "# t\nbody\n# note\nend".data).filter
          (fun l => !((pyStrip l).head? == some '#')))) ++ "\n\n".data)) :=
  mergeSections_readable_section demoFs demoFiles 0 "a_summary.md".data
    "# t\nbody\n# note\nend".data (by decide) rfl

/-- C6 counterexample: the artifact stores `# t\nbody\n# note\nend`; the line
`# note` begins with a heading marker but appears after body text, so the
claim says it is preserved — yet the emitted section is
`## 1. a\n\nbody\nend\n\n`, with `# note` filtered out (line 159 removes
every `#`-line, not only the leading ones). -/
theorem mergeSections_drops_inner_heading_line :
    demoFs "a_summary.md".data = Except.ok "# t\nbody\n# note\nend".data ∧
      (mergeSections demoFs demoFiles)[0]? =
        some ("## 1. a\n\nbody\nend\n\n".data) ∧
      ¬ ("# note".data <:+: ((mergeSections demoFs demoFiles)[0]?.getD [])) :=
  ⟨rfl, by decide, by decide⟩

/-- C7: when reading an artifact fails at merge time, the merge still emits a
section at the artifact's resolved position, numbered `i+1` like any other,
containing the inline failure note `读取总结内容失败: <e>` instead of the
body; every artifact still gets exactly one section (the output has one
section per input artifact) and readable artifacts are emitted normally. -/
theorem mergeSections_error_inline (fs : FileMap) (files : List (List Char))
    (i : Nat) (f e : List Char)
    (hf : (sortedFiles files)[i]? = some f) (he : fs f = Except.error e) :
    (mergeSections fs files)[i]? =
      some ("## ".data ++ Nat.toDigits 10 (i + 1) ++ ". ".data ++ basename f ++
        "\n\n".data ++ "读取总结内容失败: ".data ++ e ++ "\n\n".data) ∧
      (mergeSections fs files).length = files.length ∧
      (∀ j g c, (sortedFiles files)[j]? = some g → fs g = Except.ok c →
        (mergeSections fs files)[j]? = some (sectionHeading j g ++ sectionBody c)) := by
  refine ⟨?_, ?_, ?_⟩
  · unfold mergeSections
    rw [List.getElem?_map, List.getElem?_enum, hf]
    simp [mergeSection, he]
  · unfold mergeSections
    rw [List.length_map, List.enum_length]
    exact sortedFiles_length files
  · intro j g c hg hc
    exact mergeSections_getElem_ok fs files j g c hg hc

theorem mergeSections_error_inline_witness :
    (mergeSections demoFs demoFiles)[1]? =
      some ("## ".data ++ Nat.toDigits 10 2 ++ ". ".data ++
        basename "b_summary.md".data ++ "\n\n".data ++
        "读取总结内容失败: ".data ++ "boom".data ++ "\n\n".data) ∧
      (mergeSections demoFs demoFiles).length = demoFiles.length :=
  ⟨(mergeSections_error_inline demoFs demoFiles 1 "b_summary.md".data "boom".data
      (by decide) rfl).1,
   (mergeSections_error_inline demoFs demoFiles 1 "b_summary.md".data "boom".data
      (by decide) rfl).2.1⟩

/-! ### The pattern detector refines its specification (C8) -/

theorem dropWhile_reverse_pre (p : Char → Bool) (t : List Char) :
    (t.reverse.dropWhile p).reverse <+: t := by
  have h1 : ((t.reverse.dropWhile p).reverse).reverse <:+ t.reverse := by
    rw [List.reverse_reverse]
    exact List.dropWhile_suffix p
  exact List.reverse_suffix.mp h1

theorem pyStrip_infix_self (l : List Char) : pyStrip l <:+: l := by
  obtain ⟨u, hu⟩ := dropWhile_reverse_pre pyIsSpace (l.dropWhile pyIsSpace)
  obtain ⟨v, hv⟩ := @List.dropWhile_suffix Char l pyIsSpace
  refine ⟨v, u, ?_⟩
  unfold pyStrip
  simp only [List.append_assoc]
  rw [hu, hv]

theorem pyStrip_eq_nil_iff (l : List Char) :
    pyStrip l = [] ↔ ∀ c ∈ l, pyIsSpace c = true := by
  unfold pyStrip
  rw [List.reverse_eq_nil_iff, List.dropWhile_eq_nil_iff]
  constructor
  · intro h c hc
    by_cases hws : pyIsSpace c
    · exact hws
    · exfalso
      have hc' : c ∈ l.takeWhile pyIsSpace ++ l.dropWhile pyIsSpace := by
        rw [List.takeWhile_append_dropWhile]
        exact hc
      rcases List.mem_append.mp hc' with h1 | h2
      · exact hws (List.mem_takeWhile_imp h1)
      · exact hws (h c (List.mem_reverse.mpr h2))
  · intro h c hc
    exact h c ((List.dropWhile_sublist _).subset (List.mem_reverse.mp hc))

theorem splits_append (l : List Char) : ∀ p ∈ splits l, p.1 ++ p.2 = l := by
  induction l with
  | nil =>
    intro p hp
    simp only [splits, List.mem_singleton] at hp
    simp [hp]
  | cons c rest ih =>
    intro p hp
    simp only [splits, List.mem_cons, List.mem_map] at hp
    rcases hp with rfl | ⟨q, hq, rfl⟩
    · rfl
    · simp [ih q hq]

theorem asciiLower_of_space (c : Char) (h : pyIsSpace c = true) :
    asciiLower c = c := by
  have h' : c.toNat ∈ pyWsCodes := by simpa [pyIsSpace] using h
  have hb : ¬(65 ≤ c.toNat ∧ c.toNat ≤ 90) := by
    simp only [pyWsCodes, List.mem_cons, List.not_mem_nil, or_false] at h'
    omega
  unfold asciiLower
  rw [if_neg (by simpa using hb)]

theorem markerOK_not_all_space (mk : List Char) (h : markerOK mk = true) :
    ¬ ∀ c ∈ mk, pyIsSpace c = true := by
  intro hall
  have hmap : mk.map asciiLower = mk := by
    have h1 : mk.map asciiLower = mk.map id :=
      List.map_congr_left (fun a ha => asciiLower_of_space a (hall a ha))
    rw [h1, List.map_id]
  have h3 : isCJKChapterMarker mk = true ∨ isCJKVolMarker mk = true ∨
      isLatinMarker mk = true := by
    simpa [markerOK, or_assoc] using h
  rcases mk with _ | ⟨c, rest⟩
  · rcases h3 with h3 | h3 | h3 <;> exact absurd h3 (by decide)
  · rcases h3 with h3 | h3 | h3
    · have hc : c = '第' := by
        by_contra hc
        simp [isCJKChapterMarker, hc] at h3
      subst hc
      exact absurd (hall '第' (List.mem_cons_self _ _)) (by decide)
    · have hc : c = '卷' := by
        by_contra hc
        simp [isCJKVolMarker, hc] at h3
      subst hc
      exact absurd (hall '卷' (List.mem_cons_self _ _)) (by decide)
    · have h4 : (c :: rest) = "chapter".data ∨ (c :: rest) = "chapter.".data ∨
          (c :: rest) = "vol".data ∨ (c :: rest) = "vol.".data ∨
          (c :: rest) = "volume".data ∨ (c :: rest) = "volume.".data ∨
          (c :: rest) = "book".data ∨ (c :: rest) = "bk".data := by
        rw [isLatinMarker, hmap] at h3
        simpa [Bool.or_eq_true, or_assoc] using h3
      rcases h4 with h4 | h4 | h4 | h4 | h4 | h4 | h4 | h4 <;>
        (rw [h4] at hall; exact absurd hall (by decide))

theorem heading_pyStrip_ne_nil (l : List Char)
    (h : chapterHeadingMatch l = true) : pyStrip l ≠ [] := by
  intro hnil
  have hall : ∀ c ∈ l, pyIsSpace c = true := (pyStrip_eq_nil_iff l).mp hnil
  unfold chapterHeadingMatch at h
  rw [List.any_eq_true] at h
  obtain ⟨pr, hpr, hb⟩ := h
  rw [Bool.and_eq_true, List.any_eq_true] at hb
  obtain ⟨-, mp, hmp, hb2⟩ := hb
  rw [Bool.and_eq_true] at hb2
  have h1 : pr.1 ++ pr.2 = l := splits_append l pr hpr
  have h2 : mp.1 ++ mp.2 = pr.2 := splits_append pr.2 mp hmp
  refine markerOK_not_all_space mp.1 hb2.1 (fun c hc => hall c ?_)
  rw [← h1, ← h2]
  simp [hc]

theorem srGo_some :
    ∀ (ls : List (List Char)) (t : List Char), t ≠ [] → ∀ acc,
      srGo (some t) acc ls =
        { title := t,
          content := joinNL (acc ++ ls.takeWhile (fun x => !chapterHeadingMatch x)) } ::
          specRegexSplit (ls.dropWhile (fun x => !chapterHeadingMatch x)) := by
  intro ls
  induction ls with
  | nil =>
    intro t ht acc
    have hne : t.isEmpty = false := by simpa [List.isEmpty_iff] using ht
    simp [srGo, truthy, hne, specRegexSplit]
  | cons l ls ih =>
    intro t ht acc
    have hne : t.isEmpty = false := by simpa [List.isEmpty_iff] using ht
    by_cases hm : chapterHeadingMatch l
    · have ht' : pyStrip l ≠ [] := heading_pyStrip_ne_nil l hm
      simp only [srGo, hm, if_true, truthy, hne, Bool.not_false, List.takeWhile_cons,
        List.dropWhile_cons, Bool.not_true, Bool.false_eq_true, if_false]
      rw [ih (pyStrip l) ht' []]
      simp [specRegexSplit, hm]
    · have hm' : chapterHeadingMatch l = false := by simpa using hm
      simp only [srGo, hm', Bool.false_eq_true, if_false, truthy, hne, Bool.not_false,
        if_true, List.takeWhile_cons, List.dropWhile_cons, Bool.not_eq_true', if_true]
      rw [ih t ht (acc ++ [l])]
      simp [hm', List.append_assoc]

theorem srGo_none : ∀ ls, srGo none [] ls = specRegexSplit ls := by
  intro ls
  induction ls with
  | nil => simp [srGo, truthy, specRegexSplit]
  | cons l ls ih =>
    by_cases hm : chapterHeadingMatch l
    · have ht' : pyStrip l ≠ [] := heading_pyStrip_ne_nil l hm
      simp only [srGo, hm, if_true, truthy, List.nil_append]
      rw [srGo_some ls (pyStrip l) ht' []]
      simp [specRegexSplit, hm]
    · have hm' : chapterHeadingMatch l = false := by simpa using hm
      simp only [srGo, hm', Bool.false_eq_true, if_false, truthy]
      rw [ih]
      simp [specRegexSplit, hm']

/-- C8: the pattern detector equals its line-grouping specification on every
input: one chapter per grammar-matching line, in line order, with `title` the
matching line trimmed and `content` the intervening non-matching lines joined
by newlines; lines before the first match belong to no chapter, a match
immediately followed by a match yields empty content, and with no matching
line the result is `[]` (`specRegexSplit` returns `[]` when no line
matches). -/
theorem split_by_regex_eq_spec (text : List Char) :
    split_by_regex text = specRegexSplit (splitNL text) :=
  srGo_none (splitNL text)

/-! ### Idempotence of the text normalizer (C5)

The normalizer's output chunks are non-empty, stripped, free of two-space
runs and free of line-boundary characters; on such chunks every stage of the
pipeline is the identity. -/

theorem dropWhile_pyStrip (l : List Char) :
    (pyStrip l).dropWhile pyIsSpace = pyStrip l := by
  cases he : pyStrip l with
  | nil => rfl
  | cons a as =>
    obtain ⟨u, hu⟩ := dropWhile_reverse_pre pyIsSpace (l.dropWhile pyIsSpace)
    have hu' : (a :: as) ++ u = l.dropWhile pyIsSpace := by
      rw [← hu]
      exact congrArg (fun x => x ++ u) he.symm
    have hhead : (l.dropWhile pyIsSpace).head? = some a := by
      rw [← hu']
      rfl
    have hns : pyIsSpace a = false := by
      have hx := List.head?_dropWhile_not pyIsSpace l
      rw [hhead] at hx
      exact hx
    rw [List.dropWhile_cons, hns]
    simp

theorem pyStrip_idem (l : List Char) : pyStrip (pyStrip l) = pyStrip l := by
  show (((pyStrip l).dropWhile pyIsSpace).reverse.dropWhile pyIsSpace).reverse = pyStrip l
  rw [dropWhile_pyStrip]
  show ((((l.dropWhile pyIsSpace).reverse.dropWhile pyIsSpace).reverse.reverse).dropWhile
    pyIsSpace).reverse = pyStrip l
  rw [List.reverse_reverse, List.dropWhile_idempotent]
  rfl

theorem slGo_cons_notlb (c : Char) (hc : isLB c = false) (cur rest : List Char) :
    slGo cur (c :: rest) = slGo (cur ++ [c]) rest := by
  have hcr : (c = '\r') = False := by
    simp only [eq_iff_iff, iff_false]
    intro h
    subst h
    exact absurd hc (by decide)
  rw [slGo.eq_def]
  simp [hcr, hc]

theorem slGo_chunk (ch : List Char) (hch : ∀ c ∈ ch, isLB c = false) :
    ∀ cur rest, slGo cur (ch ++ rest) = slGo (cur ++ ch) rest := by
  induction ch with
  | nil => intro cur rest; simp
  | cons c ch ih =>
    intro cur rest
    have hc : isLB c = false := hch c (List.mem_cons_self _ _)
    rw [List.cons_append, slGo_cons_notlb c hc,
      ih (fun d hd => hch d (List.mem_cons_of_mem _ hd))]
    simp

theorem slGo_newline (cur rest : List Char) (h : rest ≠ []) :
    slGo cur ('\n' :: rest) = cur :: slGo [] rest := by
  have hne : rest.isEmpty = false := by simpa [List.isEmpty_iff] using h
  have hd : (('\n' : Char) = '\r') = False := by simp
  have hlb : isLB '\n' = true := by decide
  rw [slGo.eq_def]
  simp [hd, hlb, hne]

theorem mem_slGo_not_lb : ∀ (cur s : List Char),
    (∀ c ∈ cur, isLB c = false) → ∀ line ∈ slGo cur s, ∀ c ∈ line, isLB c = false := by
  intro cur s
  induction cur, s using slGo.induct with
  | case1 cur =>
    intro hcur line hline
    simp only [slGo, List.mem_singleton] at hline
    subst hline
    exact hcur
  | case2 cur head hcond =>
    intro hcur
    simp at hcond
  | case3 cur head head1 rest2 hemp hcond =>
    intro hcur line hline
    rw [slGo.eq_def] at hline
    simp only [hcond, if_true, hemp, List.mem_singleton] at hline
    subst hline
    exact hcur
  | case4 cur head head1 rest2 hemp hcond ih =>
    intro hcur line hline
    rw [slGo.eq_def] at hline
    have hemp' : rest2.isEmpty = false := by simpa using hemp
    simp only [hcond, if_true, hemp', Bool.false_eq_true, if_false,
      List.mem_cons] at hline
    rcases hline with rfl | hline
    · exact hcur
    · exact ih (by simp) line hline
  | case5 cur head rest2 hcond hlb hemp =>
    intro hcur line hline
    simp only [Bool.not_eq_true] at hcond
    rw [slGo.eq_def] at hline
    simp only [hcond, Bool.false_eq_true, if_false, hlb, if_true, hemp,
      List.mem_singleton] at hline
    subst hline
    exact hcur
  | case6 cur head rest2 hcond hlb hemp ih =>
    intro hcur line hline
    simp only [Bool.not_eq_true] at hcond
    have hemp' : rest2.isEmpty = false := by simpa using hemp
    rw [slGo.eq_def] at hline
    simp only [hcond, Bool.false_eq_true, if_false, hlb, if_true, hemp',
      List.mem_cons] at hline
    rcases hline with rfl | hline
    · exact hcur
    · exact ih (by simp) line hline
  | case7 cur head rest2 hcond hlb ih =>
    intro hcur line hline
    simp only [Bool.not_eq_true] at hcond hlb
    rw [slGo.eq_def] at hline
    simp only [hcond, Bool.false_eq_true, if_false, hlb] at hline
    refine ih ?_ line hline
    intro c hc
    rcases List.mem_append.mp hc with h1 | h1
    · exact hcur c h1
    · rw [List.mem_singleton] at h1
      subst h1
      exact hlb

theorem mem_pySplitlines_not_lb (s : List Char) :
    ∀ line ∈ pySplitlines s, ∀ c ∈ line, isLB c = false := by
  cases s with
  | nil => simp [pySplitlines]
  | cons a as => exact mem_slGo_not_lb [] (a :: as) (by simp)

theorem splitTwoSpaces_cons2 (c d : Char) (rest : List Char) :
    splitTwoSpaces (c :: d :: rest) =
      if c = ' ' ∧ d = ' ' then [] :: splitTwoSpaces rest
      else match splitTwoSpaces (d :: rest) with
        | [] => [[c]]
        | p :: ps => (c :: p) :: ps := rfl

theorem splitTwoSpaces_ne_nil (l : List Char) : splitTwoSpaces l ≠ [] := by
  induction l using splitTwoSpaces.induct with
  | case1 => simp [splitTwoSpaces]
  | case2 c => simp [splitTwoSpaces]
  | case3 c d rest h ih =>
    rw [splitTwoSpaces_cons2, if_pos h]
    simp
  | case4 c d rest h heq ih => exact absurd heq ih
  | case5 c d rest h p ps heq ih =>
    rw [splitTwoSpaces_cons2, if_neg h, heq]
    simp

theorem splitTwoSpaces_head (l : List Char) :
    ∀ p ps, splitTwoSpaces l = p :: ps → p <+: l := by
  induction l using splitTwoSpaces.induct with
  | case1 =>
    intro p ps h
    simp only [splitTwoSpaces, List.cons.injEq] at h
    rw [← h.1]
  | case2 c =>
    intro p ps h
    simp only [splitTwoSpaces, List.cons.injEq] at h
    rw [← h.1]
  | case3 c d rest h ih =>
    intro p ps hh
    rw [splitTwoSpaces_cons2, if_pos h] at hh
    simp only [List.cons.injEq] at hh
    rw [← hh.1]
    simp
  | case4 c d rest h heq ih => exact absurd heq (splitTwoSpaces_ne_nil _)
  | case5 c d rest h p0 ps0 heq ih =>
    intro p ps hh
    rw [splitTwoSpaces_cons2, if_neg h, heq] at hh
    simp only [List.cons.injEq] at hh
    obtain ⟨rfl, -⟩ := hh
    obtain ⟨t, ht⟩ := ih p0 ps0 heq
    exact ⟨t, by rw [List.cons_append, ht]⟩

theorem mem_splitTwoSpaces_sublist (l : List Char) :
    ∀ ch ∈ splitTwoSpaces l, ch.Sublist l := by
  induction l using splitTwoSpaces.induct with
  | case1 => simp [splitTwoSpaces]
  | case2 c => simp [splitTwoSpaces]
  | case3 c d rest h ih =>
    intro ch hch
    rw [splitTwoSpaces_cons2, if_pos h] at hch
    rcases List.mem_cons.mp hch with rfl | hch
    · exact List.nil_sublist _
    · exact ((ih ch hch).cons d).cons c
  | case4 c d rest h heq ih => exact absurd heq (splitTwoSpaces_ne_nil _)
  | case5 c d rest h p ps heq ih =>
    intro ch hch
    rw [splitTwoSpaces_cons2, if_neg h, heq] at hch
    rcases List.mem_cons.mp hch with rfl | hch
    · exact (ih p (by rw [heq]; exact List.mem_cons_self _ _)).cons₂ c
    · exact (ih ch (by rw [heq]; exact List.mem_cons_of_mem _ hch)).cons c

theorem mem_splitTwoSpaces_no_two (l : List Char) :
    ∀ ch ∈ splitTwoSpaces l, ¬ ([' ', ' '] <:+: ch) := by
  induction l using splitTwoSpaces.induct with
  | case1 =>
    intro ch hch
    simp only [splitTwoSpaces, List.mem_singleton] at hch
    subst hch
    simp [List.infix_nil]
  | case2 c =>
    intro ch hch
    simp only [splitTwoSpaces, List.mem_singleton] at hch
    subst hch
    intro h
    have := h.sublist.length_le
    simp at this
  | case3 c d rest h ih =>
    intro ch hch
    rw [splitTwoSpaces_cons2, if_pos h] at hch
    rcases List.mem_cons.mp hch with rfl | hch
    · simp [List.infix_nil]
    · exact ih ch hch
  | case4 c d rest h heq ih => exact absurd heq (splitTwoSpaces_ne_nil _)
  | case5 c d rest h p ps heq ih =>
    intro ch hch
    rw [splitTwoSpaces_cons2, if_neg h, heq] at hch
    rcases List.mem_cons.mp hch with rfl | hch
    · intro hin
      rcases List.infix_cons_iff.mp hin with hpre | hinf
      · obtain ⟨t, ht⟩ := hpre
        simp only [List.cons_append, List.cons.injEq] at ht
        obtain ⟨rfl, hp⟩ := ht
        have hphead : p <+: d :: rest := splitTwoSpaces_head (d :: rest) p ps heq
        obtain ⟨u, hu⟩ := hphead
        rw [← hp] at hu
        simp only [List.cons_append, List.cons.injEq] at hu
        exact h ⟨rfl, hu.1.symm⟩
      · exact ih p (by rw [heq]; exact List.mem_cons_self _ _) hinf
    · exact ih ch (by rw [heq]; exact List.mem_cons_of_mem _ hch)

theorem splitTwoSpaces_of_no_two (l : List Char) (h : ¬ ([' ', ' '] <:+: l)) :
    splitTwoSpaces l = [l] := by
  induction l using splitTwoSpaces.induct with
  | case1 => rfl
  | case2 c => rfl
  | case3 c d rest hcd ih =>
    exfalso
    exact h ⟨[], rest, by simp [hcd.1, hcd.2]⟩
  | case4 c d rest hcd heq ih => exact absurd heq (splitTwoSpaces_ne_nil _)
  | case5 c d rest hcd p ps heq ih =>
    have hdr : ¬ ([' ', ' '] <:+: (d :: rest)) := by
      intro hh
      exact h (hh.trans ⟨[c], [], by simp⟩)
    have hsp := ih hdr
    rw [splitTwoSpaces_cons2, if_neg hcd, hsp]

theorem joinNL_ne_nil (ch : List Char) (cs : List (List Char)) (h : ch ≠ []) :
    joinNL (ch :: cs) ≠ [] := by
  cases cs with
  | nil => simpa [joinNL] using h
  | cons c2 cs => simp [joinNL]

theorem slGo_joinNL : ∀ cs : List (List Char),
    (∀ ch ∈ cs, ch ≠ [] ∧ ∀ c ∈ ch, isLB c = false) →
      cs ≠ [] → slGo [] (joinNL cs) = cs := by
  intro cs
  induction cs with
  | nil => intro _ h; exact absurd rfl h
  | cons ch cs ih =>
    intro hs _
    have hch := hs ch (List.mem_cons_self _ _)
    cases cs with
    | nil =>
      show slGo [] (joinNL [ch]) = [ch]
      have h1 : joinNL [ch] = ch ++ [] := by simp [joinNL]
      rw [h1, slGo_chunk ch hch.2 [] []]
      simp [slGo]
    | cons ch2 cs2 =>
      have hch2 := hs ch2 (List.mem_cons_of_mem _ (List.mem_cons_self _ _))
      have hrest : joinNL (ch2 :: cs2) ≠ [] := joinNL_ne_nil ch2 cs2 hch2.1
      have h1 : joinNL (ch :: ch2 :: cs2) = ch ++ '\n' :: joinNL (ch2 :: cs2) := rfl
      rw [h1, slGo_chunk ch hch.2 [] ('\n' :: joinNL (ch2 :: cs2)),
        List.nil_append, slGo_newline ch (joinNL (ch2 :: cs2)) hrest,
        ih (fun x hx => hs x (List.mem_cons_of_mem _ hx)) (by simp)]

theorem pySplitlines_joinNL (cs : List (List Char))
    (h : ∀ ch ∈ cs, ch ≠ [] ∧ ∀ c ∈ ch, isLB c = false) :
    pySplitlines (joinNL cs) = cs := by
  cases cs with
  | nil => rfl
  | cons ch cs =>
    have hne : joinNL (ch :: cs) ≠ [] := joinNL_ne_nil ch cs (h ch (List.mem_cons_self _ _)).1
    have h2 := slGo_joinNL (ch :: cs) h (by simp)
    rcases hx : joinNL (ch :: cs) with _ | ⟨a, as⟩
    · exact absurd hx hne
    · rw [hx] at h2
      calc pySplitlines (a :: as) = slGo [] (a :: as) := rfl
        _ = ch :: cs := h2

theorem flatMap_singleton_id (f : List Char → List (List Char)) :
    ∀ l : List (List Char), (∀ x ∈ l, f x = [x]) → l.flatMap f = l := by
  intro l
  induction l with
  | nil => intro _; rfl
  | cons a l ih =>
    intro h
    rw [List.flatMap_cons, h a (List.mem_cons_self _ _),
      ih (fun x hx => h x (List.mem_cons_of_mem _ hx))]
    rfl

theorem normChunks_props (s : List Char) :
    ∀ ch ∈ normChunks s, ch ≠ [] ∧ pyStrip ch = ch ∧ ¬ ([' ', ' '] <:+: ch) ∧
      ∀ c ∈ ch, isLB c = false := by
  intro ch hch
  unfold normChunks at hch
  rw [List.mem_filter] at hch
  obtain ⟨hmem, hne⟩ := hch
  rw [List.mem_flatMap] at hmem
  obtain ⟨line, hline, hmem2⟩ := hmem
  rw [List.mem_map] at hline
  obtain ⟨raw, hraw, rfl⟩ := hline
  rw [List.mem_map] at hmem2
  obtain ⟨phrase, hphrase, rfl⟩ := hmem2
  refine ⟨by simpa [List.isEmpty_iff] using hne, pyStrip_idem phrase, ?_, ?_⟩
  · intro hin
    exact mem_splitTwoSpaces_no_two _ phrase hphrase
      (hin.trans (pyStrip_infix_self phrase))
  · intro c hc
    have hc2 : c ∈ phrase := (pyStrip_infix_self phrase).sublist.subset hc
    have hc3 : c ∈ pyStrip raw := (mem_splitTwoSpaces_sublist _ phrase hphrase).subset hc2
    have hc4 : c ∈ raw := (pyStrip_infix_self raw).sublist.subset hc3
    exact mem_pySplitlines_not_lb s raw hraw c hc4

theorem normChunks_joinNL (cs : List (List Char))
    (h : ∀ ch ∈ cs, ch ≠ [] ∧ pyStrip ch = ch ∧ ¬ ([' ', ' '] <:+: ch) ∧
      ∀ c ∈ ch, isLB c = false) :
    normChunks (joinNL cs) = cs := by
  unfold normChunks
  rw [pySplitlines_joinNL cs (fun ch hch => ⟨(h ch hch).1, (h ch hch).2.2.2⟩)]
  have hmap : cs.map pyStrip = cs := by
    have h1 : cs.map pyStrip = cs.map id :=
      List.map_congr_left (fun a ha => (h a ha).2.1)
    rw [h1, List.map_id]
  rw [hmap]
  have hfm : cs.flatMap (fun line => (splitTwoSpaces line).map pyStrip) = cs := by
    apply flatMap_singleton_id
    intro x hx
    rw [splitTwoSpaces_of_no_two x (h x hx).2.2.1]
    simp only [List.map_cons, List.map_nil]
    rw [(h x hx).2.1]
  rw [hfm]
  rw [List.filter_eq_self.mpr]
  intro a ha
  simpa [List.isEmpty_iff] using (h a ha).1

/-- C5: the text normalizer is idempotent — applying the normalization
pipeline (split into lines, strip each line, split each line on two-space
occurrences, strip each phrase, drop all empty results, rejoin with single
newlines) to its own output returns that output unchanged. -/
theorem normalizeText_idem (s : List Char) :
    normalizeText (normalizeText s) = normalizeText s := by
  unfold normalizeText
  rw [normChunks_joinNL (normChunks s) (normChunks_props s)]

end EpubSummary
